import Mathlib

/-!
Verification of the Mixpanel event-export data pipeline
(`src/event_export_new.py`, with `src/event_export.py` as the older duplicate).

The development shallowly embeds the data-transformation logic of
`fetch_mixpanel_events` and the column-filter / download section:

* JSON values appearing on response lines (`JVal`, `JFields`);
* the pandas `DataFrame` built from the parsed records, with the operations
  the script uses (`pd.DataFrame(records)`, `pd.json_normalize`, `drop`,
  `pd.concat(axis=1)`, `drop_duplicates(subset=...)`, `sort_values`,
  `df[cols]`, `to_csv(index=False)`);
* the Python string operations the script relies on (`str.strip`,
  `str.split("\n")`, slicing `text[:500]`), modelled at the character level;
* URL construction as performed by `requests.get(base_url, params=...)`
  (insertion-ordered `urlencode` with `quote_plus`) together with the
  caller-side `json.dumps(events)` and `strftime("%Y-%m-%d")`.

Failures are explicit: Python exceptions raised or propagated by the script
become constructors of `PyError`, and the pipeline returns
`Except PyError DataFrame`.
-/

/-! ### JSON values

A parsed JSON value as produced by `json.loads` for a response line.
Numbers are modelled as integers (the claims under verification involve no
floating-point arithmetic); arrays do not occur in the claims and are
omitted from the value grammar.  Objects keep their key order, as Python
dicts do.  The mutual presentation (instead of `List (String × JVal)`
inside `jobj`) lets Lean derive decidable equality. -/

mutual
inductive JVal where
  | jnull
  | jbool (b : Bool)
  | jint (n : Int)
  | jstr (s : String)
  | jobj (fields : JFields)
  deriving DecidableEq, Repr
inductive JFields where
  | fnil
  | fcons (key : String) (val : JVal) (rest : JFields)
  deriving DecidableEq, Repr
end

def JFields.toList : JFields → List (String × JVal)
  | .fnil => []
  | .fcons k v rest => (k, v) :: rest.toList

/-- A record parsed from one response line: a JSON object given as its
ordered field list (Python dict iteration order = insertion order). -/
def JRecord : Type := List (String × JVal)

instance : DecidableEq JRecord := by
  unfold JRecord; infer_instance

/-! ### Python string runtime

Character-level models of the `str` operations the script uses. -/

/-- Python `str.isspace` for a single character: the characters stripped by
`str.strip()` with no argument. -/
def pyIsSpace (c : Char) : Bool :=
  c = ' ' || c = '\t' || c = '\n' || (c.toNat ≥ 0xb && c.toNat ≤ 0xd) ||
  (c.toNat ≥ 0x1c && c.toNat ≤ 0x1f) || c.toNat = 0x85 || c.toNat = 0xa0 ||
  c.toNat = 0x1680 || (c.toNat ≥ 0x2000 && c.toNat ≤ 0x200a) ||
  c.toNat = 0x2028 || c.toNat = 0x2029 || c.toNat = 0x202f ||
  c.toNat = 0x205f || c.toNat = 0x3000

/-- Python `s.strip()`: drop leading and trailing whitespace. -/
def pyStrip (s : String) : String :=
  (((s.data.dropWhile pyIsSpace).reverse.dropWhile pyIsSpace).reverse).asString

/-- Python `s.split("\n")` on the character list: split at every newline,
never collapsing separators; the empty string yields one empty part. -/
def splitNl : List Char → List (List Char)
  | [] => [[]]
  | c :: cs =>
    match splitNl cs with
    | [] => [[]]
    | part :: parts =>
      if c = '\n' then [] :: part :: parts else (c :: part) :: parts

/-- Python `text.strip().split("\n")` as a list of strings. -/
def pyLines (text : String) : List String :=
  (splitNl (pyStrip text).data).map List.asString

/-- Python slicing `s[:n]` (by characters, as Python slices `str`). -/
def pySlice (s : String) (n : Nat) : String :=
  (s.data.take n).asString

/-! ### Errors

Python exceptions that can escape `fetch_mixpanel_events` or the
processing/column-filter code, distinguished the way Python distinguishes
them: `Exception(msg)` raised explicitly by the script carries its message;
`json.loads` failures are `json.JSONDecodeError` (a distinct type);
`pd.json_normalize` applied to a non-dict entry raises `AttributeError`;
`df[cols]` with an unknown label raises `KeyError`; a `requests` transport
failure is a `requests` exception raised before any response exists. -/

inductive PyError where
  | exception (msg : String)
  | jsonDecodeError
  | attributeError
  | keyError
  | requestsError (msg : String)
  deriving DecidableEq, Repr

instance {ε α : Type} [DecidableEq ε] [DecidableEq α] :
    DecidableEq (Except ε α) := fun x y =>
  match x, y with
  | .ok a, .ok b =>
    if h : a = b then isTrue (by rw [h])
    else isFalse (fun hh => by cases hh; exact h rfl)
  | .error e, .error f =>
    if h : e = f then isTrue (by rw [h])
    else isFalse (fun hh => by cases hh; exact h rfl)
  | .ok _, .error _ => isFalse (fun hh => by cases hh)
  | .error _, .ok _ => isFalse (fun hh => by cases hh)

/-! ### DataFrame model

A pandas `DataFrame` as used by the script: an ordered list of column
labels (duplicates possible, e.g. after `pd.concat(axis=1)`) and rows of
cells aligned positionally with the labels.  A cell of `none` is pandas
`NaN` (a key missing from the originating record). -/

structure DataFrame where
  cols : List String
  rows : List (List (Option JVal))
  deriving DecidableEq, Repr

/-- The cell of `row` under the first column labelled `c` (pandas label
lookup when the label is unique; `none` when the label is absent). -/
def getCell : List String → List (Option JVal) → String → Option JVal
  | c :: cs, v :: vs, k => if c = k then v else getCell cs vs k
  | _, _, _ => none

/-- All cells of `row` whose column label is `c`, in column order
(pandas `df[c]` keeps every column with a duplicated label). -/
def cellsFor : List String → List (Option JVal) → String → List (Option JVal)
  | c :: cs, v :: vs, k =>
    if c = k then v :: cellsFor cs vs k else cellsFor cs vs k
  | _, _, _ => []

/-- The cells of `row` whose column label is not `c` (row part of
`df.drop(columns=[c])`, which drops every column with that label). -/
def dropCells (k : String) : List String → List (Option JVal) → List (Option JVal)
  | c :: cs, v :: vs =>
    if c = k then dropCells k cs vs else v :: dropCells k cs vs
  | _, _ => []

/-- `df.drop(columns=[c])`. -/
def DataFrame.dropColumn (df : DataFrame) (c : String) : DataFrame :=
  ⟨df.cols.filter (fun x => x ≠ c), df.rows.map (fun r => dropCells c df.cols r)⟩

/-- The column `df[c]` as a list of cells, one per row. -/
def DataFrame.getCol (df : DataFrame) (c : String) : List (Option JVal) :=
  df.rows.map (fun r => getCell df.cols r c)

/-- `pd.concat([a, b], axis=1)` for two frames over the same `RangeIndex`
(in the pipeline both operands are derived row-for-row from the same
record list, so concatenation is positional). -/
def concatCols (a b : DataFrame) : DataFrame :=
  ⟨a.cols ++ b.cols, List.zipWith (fun r s => r ++ s) a.rows b.rows⟩

/-- Accumulate the keys of one record into the running column list,
keeping first-appearance order and skipping keys already present. -/
def addKeys (acc : List String) (r : JRecord) : List String :=
  r.foldl (fun acc kv => if kv.1 ∈ acc then acc else acc ++ [kv.1]) acc

/-- Column labels of `pd.DataFrame(records)`: union of the record keys in
order of first appearance. -/
def collectCols (recs : List JRecord) : List String :=
  recs.foldl addKeys []

/-- First binding of key `k` in a record (Python dicts have unique keys). -/
def lookupKey (r : JRecord) (k : String) : Option JVal :=
  (r.find? (fun kv => kv.1 = k)).map (fun kv => kv.2)

/-- `pd.DataFrame(records)` for a list of parsed JSON objects: one row per
record, one column per key (first-appearance order), `NaN` for keys a
record lacks. -/
def DataFrame.ofRecords (recs : List JRecord) : DataFrame :=
  let cols := collectCols recs
  ⟨cols, recs.map (fun r => cols.map (fun c => lookupKey r c))⟩

/-! ### Flattening (`pd.json_normalize` and the `properties` merge) -/

mutual
/-- One field of a nested record under `pd.json_normalize`: a dict value
is flattened recursively with dot-joined key paths, any other value is a
leaf cell. -/
def flattenVal (path : String) (k : String) : JVal → List (String × JVal)
  | .jobj fs => flattenFields (path ++ k ++ ".") fs
  | v => [(path ++ k, v)]
/-- `pd.json_normalize` record flattening, accumulating the dotted path. -/
def flattenFields (path : String) : JFields → List (String × JVal)
  | .fnil => []
  | .fcons k v rest => flattenVal path k v ++ flattenFields path rest
end

/-- The per-entry walk of `pd.json_normalize` over the cells of a column:
every entry must be a dict; iteration stops with `AttributeError` at the
first `NaN` or non-dict entry. -/
def normalizeRecords : List (Option JVal) → Except PyError (List JFields)
  | [] => pure []
  | some (.jobj fs) :: rest =>
    (normalizeRecords rest).map (fun objs => fs :: objs)
  | _ :: _ => throw PyError.attributeError

/-- `pd.json_normalize(series)` over the cells of the `properties` column:
the flattened records form a frame exactly as `pd.DataFrame(records)`
does. -/
def jsonNormalize (vals : List (Option JVal)) : Except PyError DataFrame :=
  (normalizeRecords vals).map (fun objs =>
    DataFrame.ofRecords (objs.map (fun fs => flattenFields "" fs)))

/-- The flattening step of `fetch_mixpanel_events`:

    if "properties" in df.columns:
        prop_df = pd.json_normalize(df["properties"])
        df = pd.concat([df.drop(columns=["properties"]), prop_df], axis=1)
-/
def flattenProperties (df : DataFrame) : Except PyError DataFrame :=
  if "properties" ∈ df.cols then do
    let propDf ← jsonNormalize (df.getCol "properties")
    pure (concatCols (df.dropColumn "properties") propDf)
  else pure df

/-! ### Deduplication and sorting on the insert id -/

/-- `drop_duplicates(subset=c)` core: keep a row when its key has not been
seen on an earlier kept row (pandas default `keep="first"`); `NaN` keys
count as equal to each other, as pandas treats them. -/
def dedupByKey {α β : Type} [DecidableEq β] (key : α → β) :
    List β → List α → List α
  | _, [] => []
  | seen, r :: rs =>
    if key r ∈ seen then dedupByKey key seen rs
    else r :: dedupByKey key (key r :: seen) rs

/-- `df.drop_duplicates(subset=c)`. -/
def DataFrame.dropDuplicates (df : DataFrame) (c : String) : DataFrame :=
  ⟨df.cols, dedupByKey (fun r => getCell df.cols r c) [] df.rows⟩

/-- Lexicographic comparison of strings by code point, the comparison
Python uses on `str` and hence the order `sort_values` applies to a string
column. -/
def charListLe : List Char → List Char → Bool
  | [], _ => true
  | _ :: _, [] => false
  | a :: as, b :: bs =>
    if a.toNat < b.toNat then true
    else if b.toNat < a.toNat then false
    else charListLe as bs

def strLeB (s t : String) : Bool := charListLe s.data t.data

/-- Total preorder on values used as the sort key order.  Within one
constructor it is the Python comparison (integers numerically, strings by
code point); across constructors it is an arbitrary fixed precedence —
in a real run the key column holds one homogeneous scalar type (Mixpanel
insert ids are strings), where only the same-constructor cases arise. -/
def JVal.leB : JVal → JVal → Bool
  | .jnull, _ => true
  | _, .jnull => false
  | .jbool x, .jbool y => !x || y
  | .jbool _, _ => true
  | _, .jbool _ => false
  | .jint x, .jint y => decide (x ≤ y)
  | .jint _, _ => true
  | _, .jint _ => false
  | .jstr x, .jstr y => strLeB x y
  | .jstr _, _ => true
  | _, .jstr _ => false
  | .jobj _, .jobj _ => true

/-- Cell order used by `sort_values(c)`: values ascending, `NaN` placed
last (pandas default `na_position="last"`). -/
def cellLE : Option JVal → Option JVal → Bool
  | none, none => true
  | none, some _ => false
  | some _, none => true
  | some a, some b => a.leB b

/-- Insert into a sorted list with respect to a boolean comparison. -/
def insertLe {α : Type} (le : α → α → Bool) (a : α) : List α → List α
  | [] => [a]
  | b :: bs => if le a b then a :: b :: bs else b :: insertLe le a bs

/-- Comparison sort with respect to a boolean comparison.  The script
sorts right after deduplicating, so the keys are pairwise distinct and
every comparison sort (pandas uses quicksort here) yields the same row
order; insertion sort keeps the model kernel-computable. -/
def sortByLe {α : Type} (le : α → α → Bool) : List α → List α
  | [] => []
  | a :: as => insertLe le a (sortByLe le as)

/-- `df.sort_values(c)`: rows reordered by the key column ascending. -/
def DataFrame.sortValues (df : DataFrame) (c : String) : DataFrame :=
  ⟨df.cols, sortByLe
    (fun r s => cellLE (getCell df.cols r c) (getCell df.cols s c)) df.rows⟩

/-- The deduplication step of `fetch_mixpanel_events`:

    if "$insert_id" in df.columns:
        df = df.drop_duplicates(subset="$insert_id").sort_values("$insert_id")
-/
def dedupSortByInsertId (df : DataFrame) : DataFrame :=
  if "$insert_id" ∈ df.cols then
    (df.dropDuplicates "$insert_id").sortValues "$insert_id"
  else df

/-! ### The fetch pipeline on a received response -/

/-- An HTTP response as seen by the script: `response.status_code` and
`response.text`. -/
structure HttpResponse where
  status : Nat
  text : String
  deriving DecidableEq, Repr

/-- Decimal digit character. -/
def digitChar (d : Nat) : Char := Char.ofNat (48 + d)

/-- Digit recursion on explicit fuel (`n + 1` steps always suffice), so
that the definition reduces inside the kernel. -/
def natDigitsRec : Nat → Nat → List Char
  | 0, _ => []
  | fuel + 1, n =>
    if n < 10 then [digitChar n]
    else natDigitsRec fuel (n / 10) ++ [digitChar (n % 10)]

/-- The decimal digits of a natural number (Python `str(int)` for a
non-negative value). -/
def natDigits (n : Nat) : List Char := natDigitsRec (n + 1) n

/-- Python decimal rendering of a natural number. -/
def natDecimal (n : Nat) : String := ⟨natDigits n⟩

/-- The message of the exception raised on a non-200 status:
`f"Error fetching data: \x7bresponse.status_code\x7d - \x7bresponse.text[:500]\x7d"`. -/
def remoteErrorMsg (status : Nat) (text : String) : String :=
  "Error fetching data: " ++ natDecimal status ++ " - " ++ pySlice text 500

/-- The message of the exception raised on an empty result. -/
def noDataMsg : String :=
  "No data returned from Mixpanel for the given criteria."

/-- The list comprehension `[json.loads(line) for line in lines]`, with
`parse` standing for `json.loads` on one line: evaluation runs left to
right and the first invalid line aborts the whole list. -/
def parseLines (parse : String → Option JRecord) : List String → Option (List JRecord)
  | [] => some []
  | l :: ls =>
    match parse l, parseLines parse ls with
    | some r, some rs => some (r :: rs)
    | _, _ => none

/-- Body of `fetch_mixpanel_events` from the status check onward, the part
of the function that runs once `requests.get` has returned.  A failed line
parse surfaces as `json.JSONDecodeError`. -/
def processResponse (parse : String → Option JRecord) (resp : HttpResponse) :
    Except PyError DataFrame := do
  if resp.status ≠ 200 then
    throw (PyError.exception (remoteErrorMsg resp.status resp.text))
  else
    let lines := pyLines resp.text
    if lines = [] ∨ lines = [""] then
      throw (PyError.exception noDataMsg)
    else
      match parseLines parse lines with
      | none => throw PyError.jsonDecodeError
      | some recs => do
        let df ← flattenProperties (DataFrame.ofRecords recs)
        pure (dedupSortByInsertId df)

/-! ### URL construction

`fetch_mixpanel_events` passes a params dict to `requests.get`, which
serializes it with `urllib.parse.urlencode`: parameters in insertion
order, keys and values encoded by `quote_plus` (space becomes `+`, bytes
outside the unreserved set become uppercase percent escapes of their
UTF-8 encoding).  The caller serializes the event list with
`json.dumps` (default separators, `ensure_ascii=True`) and formats both
dates with `strftime("%Y-%m-%d")`. -/

/-- Uppercase hex digit. -/
def hexDigitU (d : Nat) : Char :=
  if d < 10 then Char.ofNat (48 + d) else Char.ofNat (55 + d)

/-- Lowercase hex digit (as `json.dumps` uses in `\uXXXX` escapes). -/
def hexDigitL (d : Nat) : Char :=
  if d < 10 then Char.ofNat (48 + d) else Char.ofNat (87 + d)

/-- Four-digit lowercase hex. -/
def hex4 (n : Nat) : String :=
  ⟨[hexDigitL (n / 4096 % 16), hexDigitL (n / 256 % 16),
    hexDigitL (n / 16 % 16), hexDigitL (n % 16)]⟩

/-- UTF-8 encoding of one character, as the list of its byte values. -/
def charUtf8 (c : Char) : List Nat :=
  let n := c.toNat
  if n < 0x80 then [n]
  else if n < 0x800 then [0xc0 + n / 64, 0x80 + n % 64]
  else if n < 0x10000 then
    [0xe0 + n / 4096, 0x80 + n / 64 % 64, 0x80 + n % 64]
  else
    [0xf0 + n / 262144, 0x80 + n / 4096 % 64, 0x80 + n / 64 % 64,
     0x80 + n % 64]

/-- UTF-8 bytes of a string. -/
def utf8Bytes (s : String) : List Nat :=
  (s.data.map charUtf8).flatten

/-- The characters `urllib.parse.quote` never encodes (its `always_safe`
set): ASCII letters, digits, and `_.-~`.  `quote_plus` is called with an
empty extra safe set. -/
def isUrlSafe (c : Char) : Bool :=
  (c.toNat ≥ 65 && c.toNat ≤ 90) || (c.toNat ≥ 97 && c.toNat ≤ 122) ||
  (c.toNat ≥ 48 && c.toNat ≤ 57) || c = '_' || c = '.' || c = '-' || c = '~'

/-- A percent escape of one byte, uppercase hex as `urllib` writes it. -/
def pctChars (b : Nat) : List Char :=
  ['%', hexDigitU (b / 16 % 16), hexDigitU (b % 16)]

/-- `urllib.parse.quote_plus` on the character list: safe characters pass
through, space becomes `+`, every other character contributes a percent
escape per UTF-8 byte. -/
def quotePlusChars : List Char → List Char
  | [] => []
  | c :: cs =>
    (if isUrlSafe c then [c]
     else if c = ' ' then ['+']
     else ((charUtf8 c).map pctChars).flatten) ++ quotePlusChars cs

/-- `urllib.parse.quote_plus`. -/
def quotePlus (s : String) : String := ⟨quotePlusChars s.data⟩

/-- `urllib.parse.urlencode` over an insertion-ordered parameter list:
`key=value` pairs, each side `quote_plus`-encoded, joined by `&`. -/
def urlencodeParams : List (String × String) → String
  | [] => ""
  | [kv] => quotePlus kv.1 ++ "=" ++ quotePlus kv.2
  | kv :: rest =>
    quotePlus kv.1 ++ "=" ++ quotePlus kv.2 ++ "&" ++ urlencodeParams rest

/-- One character under `json.dumps` with `ensure_ascii=True`: short
escapes for the usual control characters and for quote and backslash,
`\uXXXX` for remaining control and all non-ASCII characters (surrogate
pairs above the BMP), everything else literal. -/
def jsonEscapeChar (c : Char) : String :=
  if c = '"' then "\\\""
  else if c = '\\' then "\\\\"
  else if c = '\n' then "\\n"
  else if c = '\r' then "\\r"
  else if c = '\t' then "\\t"
  else if c.toNat = 8 then "\\b"
  else if c.toNat = 12 then "\\f"
  else if c.toNat < 0x20 then "\\u" ++ hex4 c.toNat
  else if c.toNat < 0x7f then ⟨[c]⟩
  else if c.toNat < 0x10000 then "\\u" ++ hex4 c.toNat
  else
    "\\u" ++ hex4 (0xd800 + (c.toNat - 0x10000) / 1024) ++
    "\\u" ++ hex4 (0xdc00 + (c.toNat - 0x10000) % 1024)

/-- `json.dumps` of one string. -/
def jsonDumpsStr (s : String) : String :=
  "\"" ++ String.join (s.data.map jsonEscapeChar) ++ "\""

/-- `json.dumps` of a list of strings (default separators: comma-space). -/
def jsonDumpsStrList (events : List String) : String :=
  "[" ++ String.intercalate ", " (events.map jsonDumpsStr) ++ "]"

/-- `region_prefix = "data-eu" if region == "EU" else "data"`. -/
def regionHost (region : String) : String :=
  if region = "EU" then "data-eu" else "data"

/-- `base_url = f"https://\x7bregion_prefix\x7d.mixpanel.com/api/2.0/export"`. -/
def mixpanelBaseUrl (region : String) : String :=
  "https://" ++ regionHost region ++ ".mixpanel.com/api/2.0/export"

/-- The params dict of `fetch_mixpanel_events`, in insertion order; the
`where` entry is added only when `where` is truthy (not `None`, not the
empty string). -/
def buildParams (projectId : String) (events : List String)
    (startDate endDate : String) (whereP : Option String) :
    List (String × String) :=
  [("project_id", projectId), ("from_date", startDate),
   ("to_date", endDate), ("event", jsonDumpsStrList events)] ++
  (match whereP with
   | some w => if w = "" then [] else [("where", w)]
   | none => [])

/-- The one URL `requests.get` is given by `fetch_mixpanel_events`
(base URL plus the urlencoded params). -/
def fetchMixpanelUrl (projectId : String) (events : List String)
    (startDate endDate : String) (whereP : Option String)
    (region : String) : String :=
  mixpanelBaseUrl region ++ "?" ++
    urlencodeParams (buildParams projectId events startDate endDate whereP)

/-- A `datetime.date` as held by the date pickers. -/
structure PyDate where
  year : Nat
  month : Nat
  day : Nat
  deriving DecidableEq, Repr

/-- Zero-pad a number to a width, as `strftime` field formatting does. -/
def padZeros (width : Nat) (n : Nat) : String :=
  ⟨List.replicate (width - (natDigits n).length) '0' ++ natDigits n⟩

/-- `d.strftime("%Y-%m-%d")`. -/
def strftimeYmd (d : PyDate) : String :=
  padZeros 4 d.year ++ "-" ++ padZeros 2 d.month ++ "-" ++ padZeros 2 d.day

/-- The caller-side where argument: `where_expression.strip() or None`. -/
def whereArg (raw : String) : Option String :=
  if pyStrip raw = "" then none else some (pyStrip raw)

/-- The URL of the single outbound call made when the export runs: dates
formatted by the main logic, the where expression stripped and dropped
when blank. -/
def runExportUrl (projectId : String) (events : List String)
    (fromDate toDate : PyDate) (whereRaw : String) (region : String) :
    String :=
  fetchMixpanelUrl projectId events (strftimeYmd fromDate)
    (strftimeYmd toDate) (whereArg whereRaw) region

/-- Value of one hex digit character, either case. -/
def hexVal (c : Char) : Option Nat :=
  if c.toNat ≥ 48 && c.toNat ≤ 57 then some (c.toNat - 48)
  else if c.toNat ≥ 65 && c.toNat ≤ 70 then some (c.toNat - 55)
  else if c.toNat ≥ 97 && c.toNat ≤ 102 then some (c.toNat - 87)
  else none

/-- Percent-decoding of a query-parameter value back to its byte list
(`+` to space, `%XX` to a byte, other characters to their code, which for
the ASCII output of `quotePlus` is the byte itself).  Decodability of the
encoded parameter is what "correctly URL-encoded" asserts. -/
def percentDecodeBytes : List Char → Option (List Nat)
  | [] => some []
  | c :: cs =>
    if c = '+' then (percentDecodeBytes cs).map (fun r => 32 :: r)
    else if c = '%' then
      match cs with
      | h :: l :: rest => do
        let hv ← hexVal h
        let lv ← hexVal l
        let r ← percentDecodeBytes rest
        pure ((16 * hv + lv) :: r)
      | _ => none
    else (percentDecodeBytes cs).map (fun r => c.toNat :: r)

/-! ### Column projection (the download section's column filter) -/

/-- `export_df = df[selected_cols] if selected_cols else df`.  An empty
selection keeps the frame unchanged; a non-empty selection takes, for
each requested label in order, every column of the frame carrying that
label (pandas raises `KeyError` when a requested label is absent). -/
def project (df : DataFrame) (sel : List String) : Except PyError DataFrame :=
  if sel = [] then pure df
  else if sel.all (fun s => decide (s ∈ df.cols)) then
    pure ⟨(sel.map (fun s => df.cols.filter (fun c => c = s))).flatten,
          df.rows.map (fun r =>
            (sel.map (fun s => cellsFor df.cols r s)).flatten)⟩
  else throw PyError.keyError

/-! ### CSV serialization (`export_df.to_csv(index=False)`)

`to_csv` writes a header row of the column labels followed by one line per
row, each line terminated by a newline.  Fields are written with
`csv.QUOTE_MINIMAL`: a field containing the delimiter, the quote
character, or a line-break character is wrapped in double quotes with the
inner quotes doubled.  Cells are stringified by Python `str`, with `NaN`
and `None` written as the empty field. -/

/-- Python `repr` of a string as it appears inside `str(dict)`:
single-quoted with the standard escapes, switching to double quotes when
the string contains a single quote but no double quote. -/
def pyReprStr (s : String) : String :=
  let common : Char → String := fun c =>
    if c = '\\' then "\\\\"
    else if c = '\n' then "\\n"
    else if c = '\r' then "\\r"
    else if c = '\t' then "\\t"
    else ⟨[c]⟩
  if s.data.contains '\'' && !(s.data.contains '"') then
    "\"" ++ String.join (s.data.map common) ++ "\""
  else
    "'" ++ String.join (s.data.map (fun c =>
      if c = '\'' then "\\'" else common c)) ++ "'"

mutual
/-- Python `repr` of a JSON-derived value (`str` falls back to `repr`
inside containers). -/
def pyReprVal : JVal → String
  | .jnull => "None"
  | .jbool true => "True"
  | .jbool false => "False"
  | .jint n => toString n
  | .jstr s => pyReprStr s
  | .jobj fs => "\x7b" ++ pyReprFieldsInner fs ++ "\x7d"
/-- The comma-joined `'key': value` entries of `str(dict)`. -/
def pyReprFieldsInner : JFields → String
  | .fnil => ""
  | .fcons k v .fnil => pyReprStr k ++ ": " ++ pyReprVal v
  | .fcons k v rest =>
    pyReprStr k ++ ": " ++ pyReprVal v ++ ", " ++ pyReprFieldsInner rest
end

/-- The string `to_csv` writes for one cell: scalars via Python `str`
(`str(True) = "True"`, integers in decimal, strings verbatim), missing
values and `None` as the empty field, and a dict cell via `str(dict)`. -/
def cellToCsv : Option JVal → String
  | none => ""
  | some .jnull => ""
  | some (.jbool true) => "True"
  | some (.jbool false) => "False"
  | some (.jint n) => toString n
  | some (.jstr s) => s
  | some (.jobj fs) => "\x7b" ++ pyReprFieldsInner fs ++ "\x7d"

/-- `csv.QUOTE_MINIMAL`: a field needs quoting when it contains the
delimiter, the quote character, or a line break. -/
def needsQuote (s : String) : Bool :=
  s.data.any (fun c => c = ',' || c = '"' || c = '\n' || c = '\r')

/-- Double every quote character (the content of a quoted CSV field). -/
def escapeQuotes : List Char → List Char
  | [] => []
  | c :: cs =>
    if c = '"' then '"' :: '"' :: escapeQuotes cs else c :: escapeQuotes cs

/-- One CSV field as the `csv` module writes it under `QUOTE_MINIMAL`. -/
def encodeField (s : String) : String :=
  if needsQuote s then "\"" ++ (escapeQuotes s.data).asString ++ "\"" else s

/-- One CSV record: fields joined by the comma delimiter. -/
def encodeRow : List String → String
  | [] => ""
  | [f] => encodeField f
  | f :: fs => encodeField f ++ "," ++ encodeRow fs

/-- Concatenation of the record lines. -/
def csvConcatRows : List String → String
  | [] => ""
  | s :: rest => s ++ csvConcatRows rest

/-- `df.to_csv(index=False)`: header row from the column labels verbatim,
then the stringified rows, each record terminated by a newline. -/
def dfToCsv (df : DataFrame) : String :=
  encodeRow df.cols ++ "\n" ++
    csvConcatRows (df.rows.map (fun r => encodeRow (r.map cellToCsv) ++ "\n"))

/-! ### CSV re-parsing

A standard CSV reader (RFC 4180 with lone `\n` record ends, as the
`csv` module produces here), written as a character-driven state machine
so the round-trip proof can follow the text letter by letter.  A final
record terminator ends the input; an empty segment after the last
terminator is not a record. -/

inductive CsvMode where
  | fieldStart
  | unquoted
  | quoted
  | quoteInQuoted
  deriving DecidableEq, Repr

structure CsvState where
  mode : CsvMode
  field : List Char
  record : List String
  rows : List (List String)
  deriving DecidableEq, Repr

def csvStep (st : CsvState) (c : Char) : CsvState :=
  match st.mode with
  | .fieldStart =>
    if c = '"' then { st with mode := .quoted }
    else if c = ',' then { st with record := st.record ++ [""] }
    else if c = '\n' then
      ⟨.fieldStart, [], [], st.rows ++ [st.record ++ [""]]⟩
    else { st with mode := .unquoted, field := [c] }
  | .unquoted =>
    if c = ',' then
      ⟨.fieldStart, [], st.record ++ [st.field.asString], st.rows⟩
    else if c = '\n' then
      ⟨.fieldStart, [], [], st.rows ++ [st.record ++ [st.field.asString]]⟩
    else { st with field := st.field ++ [c] }
  | .quoted =>
    if c = '"' then { st with mode := .quoteInQuoted }
    else { st with field := st.field ++ [c] }
  | .quoteInQuoted =>
    if c = '"' then { st with mode := .quoted, field := st.field ++ ['"'] }
    else if c = ',' then
      ⟨.fieldStart, [], st.record ++ [st.field.asString], st.rows⟩
    else if c = '\n' then
      ⟨.fieldStart, [], [], st.rows ++ [st.record ++ [st.field.asString]]⟩
    else { st with mode := .unquoted, field := st.field ++ [c] }

def csvFinalize (st : CsvState) : List (List String) :=
  match st.mode with
  | .fieldStart =>
    if st.record = [] then st.rows else st.rows ++ [st.record ++ [""]]
  | _ => st.rows ++ [st.record ++ [st.field.asString]]

def csvInit : CsvState := ⟨.fieldStart, [], [], []⟩

/-- Parse CSV text into its records. -/
def csvParse (s : String) : List (List String) :=
  csvFinalize (s.data.foldl csvStep csvInit)

/-! ## Supporting lemmas -/

theorem data_asString (s : String) : s.data.asString = s := by
  cases s; rfl

theorem asString_data (l : List Char) : (List.asString l).data = l := rfl

theorem except_throw_def {ε α : Type} (e : ε) :
    (throw e : Except ε α) = Except.error e := rfl

theorem except_pure_def {ε α : Type} (a : α) :
    (pure a : Except ε α) = Except.ok a := rfl

theorem splitNl_ne_nil : ∀ l : List Char, splitNl l ≠ []
  | [] => by simp [splitNl]
  | c :: cs => by
    unfold splitNl
    cases h : splitNl cs with
    | nil => simp
    | cons p ps => dsimp only; split <;> simp

theorem splitNl_ne_single_nil (l : List Char) (h : l ≠ []) :
    splitNl l ≠ [[]] := by
  cases l with
  | nil => exact absurd rfl h
  | cons c cs =>
    unfold splitNl
    cases hs : splitNl cs with
    | nil => exact absurd hs (splitNl_ne_nil cs)
    | cons p ps => dsimp only; split <;> simp

theorem pyLines_of_strip_empty (t : String) (h : pyStrip t = "") :
    pyLines t = [""] := by
  rw [pyLines, h]
  rfl

theorem pyLines_of_strip_ne (t : String) (h : pyStrip t ≠ "") :
    ¬(pyLines t = [] ∨ pyLines t = [""]) := by
  have hd : (pyStrip t).data ≠ [] := by
    intro hdata
    exact h (String.ext hdata)
  rintro (h1 | h2)
  · rw [pyLines] at h1
    exact splitNl_ne_nil _ (List.map_eq_nil_iff.mp h1)
  · rw [pyLines] at h2
    cases hsp : splitNl (pyStrip t).data with
    | nil => exact splitNl_ne_nil _ hsp
    | cons p ps =>
      rw [hsp] at h2
      simp only [List.map_cons, List.cons.injEq] at h2
      obtain ⟨hp, hps⟩ := h2
      have hpnil : p = [] := by
        have : (List.asString p).data = ("" : String).data := by rw [hp]
        simpa [asString_data] using this
      have hpsnil : ps = [] := List.map_eq_nil_iff.mp hps
      rw [hpnil, hpsnil] at hsp
      exact splitNl_ne_single_nil _ hd hsp

theorem noDataMsg_ne_remote (st : Nat) (b : String) :
    noDataMsg ≠ remoteErrorMsg st b := by
  intro h
  have h6 := congrArg (fun s => s.data.take 6) h
  simp only [remoteErrorMsg, String.data_append, List.append_assoc] at h6
  rw [List.take_append_of_le_length (by decide)] at h6
  exact absurd h6 (by decide)

theorem normalizeRecords_cons_bad (v : Option JVal)
    (rest : List (Option JVal)) (hv : ∀ fs, v ≠ some (.jobj fs)) :
    normalizeRecords (v :: rest) = Except.error PyError.attributeError := by
  match v with
  | none => rfl
  | some .jnull => rfl
  | some (.jbool b) => rfl
  | some (.jint n) => rfl
  | some (.jstr s) => rfl
  | some (.jobj fs) => exact absurd rfl (hv fs)

theorem normalizeRecords_cons_obj (fs : JFields) (rest : List (Option JVal)) :
    normalizeRecords (some (.jobj fs) :: rest)
      = (normalizeRecords rest).map (fun objs => fs :: objs) := rfl

theorem normalizeRecords_error (vals : List (Option JVal)) (e : PyError)
    (h : normalizeRecords vals = Except.error e) : e = PyError.attributeError := by
  induction vals generalizing e with
  | nil => exact absurd h (by simp [normalizeRecords, except_pure_def])
  | cons v rest ih =>
    by_cases hobj : ∃ fs, v = some (.jobj fs)
    · obtain ⟨fs, rfl⟩ := hobj
      rw [normalizeRecords_cons_obj] at h
      cases hr : normalizeRecords rest with
      | ok objs => rw [hr] at h; exact absurd h (by simp [Except.map])
      | error e' =>
        rw [hr] at h
        simp only [Except.map] at h
        injection h with h2
        exact h2 ▸ ih e' hr
    · push_neg at hobj
      rw [normalizeRecords_cons_bad v rest (fun fs hfs => hobj fs hfs)] at h
      injection h with h2
      exact h2.symm

theorem flattenProperties_error (df : DataFrame) (e : PyError)
    (h : flattenProperties df = Except.error e) : e = PyError.attributeError := by
  rw [flattenProperties] at h
  by_cases hp : "properties" ∈ df.cols
  · rw [if_pos hp] at h
    cases hn : jsonNormalize (df.getCol "properties") with
    | ok p =>
      rw [hn] at h
      exact absurd h (by simp [Bind.bind, Except.bind, except_pure_def])
    | error e' =>
      rw [hn] at h
      simp only [Bind.bind, Except.bind] at h
      injection h with h2
      rw [jsonNormalize] at hn
      cases hr : normalizeRecords (df.getCol "properties") with
      | ok objs => rw [hr] at hn; exact absurd hn (by simp [Except.map])
      | error e'' =>
        rw [hr] at hn
        simp only [Except.map] at hn
        injection hn with h3
        exact h2 ▸ h3 ▸ normalizeRecords_error _ _ hr
  · rw [if_neg hp] at h
    exact absurd h (by simp [except_pure_def])

theorem parseLines_none (parse : String → Option JRecord)
    (ls : List String) (l : String) (hl : l ∈ ls) (hbad : parse l = none) :
    parseLines parse ls = none := by
  induction ls with
  | nil => cases hl
  | cons a as ih =>
    rw [parseLines]
    cases hp : parse a with
    | none => rfl
    | some r =>
      rcases List.mem_cons.mp hl with rfl | hmem
      · rw [hp] at hbad; cases hbad
      · rw [ih hmem]

/-! ## C9 -/

/-- C9: the flattening step is the identity on every table that has no
`properties` column — the returned frame keeps the same columns and rows. -/
theorem flatten_idempotent_no_properties (df : DataFrame)
    (h : "properties" ∉ df.cols) : flattenProperties df = Except.ok df := by
  rw [flattenProperties, if_neg h]
  rfl

theorem flatten_idempotent_no_properties_witness :
    "properties" ∉ (⟨["a"], [[some (JVal.jint 1)]]⟩ : DataFrame).cols ∧
    flattenProperties ⟨["a"], [[some (JVal.jint 1)]]⟩
      = Except.ok ⟨["a"], [[some (JVal.jint 1)]]⟩ :=
  ⟨by decide, flatten_idempotent_no_properties _ (by decide)⟩

/-! ## C4 -/

/-- C4: on a non-success status the fetch raises an exception whose
message embeds the decimal status code and the 500-character slice of the
response body; the slice has length at most 500 and is a character
prefix of the body. -/
theorem remote_error_reports_status_and_body
    (parse : String → Option JRecord) (resp : HttpResponse)
    (h : resp.status ≠ 200) :
    processResponse parse resp
      = Except.error (PyError.exception (remoteErrorMsg resp.status resp.text))
    ∧ (∃ a b, remoteErrorMsg resp.status resp.text
        = a ++ (natDecimal resp.status ++ b))
    ∧ (∃ a, remoteErrorMsg resp.status resp.text = a ++ pySlice resp.text 500)
    ∧ (pySlice resp.text 500).length ≤ 500
    ∧ pySlice resp.text 500 ++ (resp.text.data.drop 500).asString = resp.text := by
  refine ⟨?_,
    ⟨"Error fetching data: ", " - " ++ pySlice resp.text 500, ?_⟩,
    ⟨"Error fetching data: " ++ natDecimal resp.status ++ " - ", ?_⟩, ?_, ?_⟩
  · rw [processResponse, if_pos h]
    rfl
  · rw [remoteErrorMsg]
    rw [String.append_assoc, String.append_assoc]
  · rw [remoteErrorMsg]
  · show ((resp.text.data.take 500).asString).length ≤ 500
    have : ((resp.text.data.take 500).asString).length
        = (resp.text.data.take 500).length := rfl
    rw [this, List.length_take]
    exact inf_le_left
  · apply String.ext
    rw [String.data_append]
    show resp.text.data.take 500 ++ resp.text.data.drop 500 = resp.text.data
    exact List.take_append_drop 500 resp.text.data

theorem remote_error_reports_status_and_body_witness :
    (500 : Nat) ≠ 200 ∧
    processResponse (fun _ => none) ⟨500, "oops"⟩
      = Except.error (PyError.exception "Error fetching data: 500 - oops") := by
  refine ⟨by decide, ?_⟩
  have h := (remote_error_reports_status_and_body (fun _ => none)
    ⟨500, "oops"⟩ (by decide)).1
  rw [h]
  rfl

/-! ## C5 -/

/-- C5: on a 200 response whose stripped body is empty, the fetch raises
the no-data exception — an error value distinct from remote-status
errors, transport errors, and parse errors; on a 200 response whose
stripped body is non-empty that exception is never raised. -/
theorem empty_body_distinct_error (parse : String → Option JRecord)
    (resp : HttpResponse) (h200 : resp.status = 200) :
    (pyStrip resp.text = "" →
      processResponse parse resp = Except.error (PyError.exception noDataMsg)
      ∧ (∀ st b, PyError.exception noDataMsg
          ≠ PyError.exception (remoteErrorMsg st b))
      ∧ (∀ m, PyError.exception noDataMsg ≠ PyError.requestsError m)
      ∧ PyError.exception noDataMsg ≠ PyError.jsonDecodeError)
    ∧ (pyStrip resp.text ≠ "" →
      processResponse parse resp ≠ Except.error (PyError.exception noDataMsg)) := by
  constructor
  · intro hstrip
    refine ⟨?_, ?_, ?_, ?_⟩
    · rw [processResponse, if_neg (by simp [h200])]
      simp only [pyLines_of_strip_empty _ hstrip]
      rw [if_pos (by simp)]
      rfl
    · intro st b heq
      injection heq with hmsg
      exact noDataMsg_ne_remote st b hmsg
    · intro m heq
      cases heq
    · intro heq
      cases heq
  · intro hstrip
    have hcond := pyLines_of_strip_ne _ hstrip
    rw [processResponse, if_neg (by simp [h200]), if_neg hcond]
    cases hp : parseLines parse (pyLines resp.text) with
    | none =>
      intro heq
      rw [except_throw_def] at heq
      injection heq with hmsg
      cases hmsg
    | some recs =>
      cases hf : flattenProperties (DataFrame.ofRecords recs) with
      | error e =>
        simp only [Bind.bind, Except.bind, hf]
        intro heq
        injection heq with he
        have hattr := flattenProperties_error _ _ hf
        rw [hattr] at he
        cases he
      | ok df' =>
        simp only [Bind.bind, Except.bind, hf]
        intro heq
        rw [except_pure_def] at heq
        cases heq

theorem empty_body_distinct_error_witness :
    (⟨200, "  \n "⟩ : HttpResponse).status = 200 ∧
    pyStrip "  \n " = "" ∧
    processResponse (fun _ => none) ⟨200, "  \n "⟩
      = Except.error (PyError.exception noDataMsg) := by
  refine ⟨rfl, by decide, ?_⟩
  exact ((empty_body_distinct_error (fun _ => none) ⟨200, "  \n "⟩ rfl).1
    (by decide)).1

/-! ## C3 -/

/-- C3: on a 200 response with a non-empty stripped body, if any response
line fails to parse as JSON the fetch fails with the JSON decode error —
the pipeline returns no table built from the lines that did parse. -/
theorem parse_failure_aborts_fetch (parse : String → Option JRecord)
    (resp : HttpResponse) (h200 : resp.status = 200)
    (hne : pyStrip resp.text ≠ "") (l : String)
    (hl : l ∈ pyLines resp.text) (hbad : parse l = none) :
    processResponse parse resp = Except.error PyError.jsonDecodeError := by
  have hcond := pyLines_of_strip_ne _ hne
  rw [processResponse, if_neg (by simp [h200]), if_neg hcond,
    parseLines_none parse _ l hl hbad]
  rfl

theorem parse_failure_aborts_fetch_witness :
    pyStrip "good\nbad" ≠ "" ∧ "bad" ∈ pyLines "good\nbad" ∧
    processResponse
      (fun l => if l = "good" then some [("a", JVal.jint 1)] else none)
      ⟨200, "good\nbad"⟩ = Except.error PyError.jsonDecodeError := by
  refine ⟨by decide, by decide, ?_⟩
  exact parse_failure_aborts_fetch _ ⟨200, "good\nbad"⟩ rfl (by decide)
    "bad" (by decide) (by decide)

/-! ## C6 -/

theorem filter_eq_singleton_of_nodup (cols : List String) (s : String)
    (hnd : cols.Nodup) (hs : s ∈ cols) :
    cols.filter (fun c => c = s) = [s] := by
  induction cols with
  | nil => cases hs
  | cons c cs ih =>
    rw [List.filter_cons]
    by_cases hcs : c = s
    · subst hcs
      rw [if_pos (by simp)]
      have hnotin : c ∉ cs := (List.nodup_cons.mp hnd).1
      have : cs.filter (fun x => decide (x = c)) = [] :=
        List.filter_eq_nil_iff.mpr (fun a ha hp => by
          rw [decide_eq_true_eq] at hp
          exact hnotin (hp ▸ ha))
      rw [this]
    · rw [if_neg (by simp [hcs])]
      apply ih (List.nodup_cons.mp hnd).2
      rcases List.mem_cons.mp hs with rfl | h2
      · exact absurd rfl hcs
      · exact h2

theorem cellsFor_not_mem (cols : List String) (row : List (Option JVal))
    (s : String) (hs : s ∉ cols) : cellsFor cols row s = [] := by
  induction cols generalizing row with
  | nil => cases row <;> rfl
  | cons c cs ih =>
    cases row with
    | nil => rfl
    | cons v vs =>
      simp only [cellsFor]
      rw [if_neg (fun h => hs (List.mem_cons.mpr (Or.inl h.symm)))]
      exact ih vs (fun h => hs (List.mem_cons_of_mem _ h))

theorem cellsFor_single (cols : List String) (row : List (Option JVal))
    (s : String) (hnd : cols.Nodup) (hs : s ∈ cols)
    (hlen : row.length = cols.length) :
    cellsFor cols row s = [getCell cols row s] := by
  induction cols generalizing row with
  | nil => cases hs
  | cons c cs ih =>
    cases row with
    | nil => simp at hlen
    | cons v vs =>
      simp only [cellsFor, getCell]
      by_cases hcs : c = s
      · rw [if_pos hcs, if_pos hcs]
        have hnotin : s ∉ cs := hcs ▸ (List.nodup_cons.mp hnd).1
        rw [cellsFor_not_mem cs vs s hnotin]
      · rw [if_neg hcs, if_neg hcs]
        have hmem : s ∈ cs := by
          rcases List.mem_cons.mp hs with rfl | h2
          · exact absurd rfl hcs
          · exact h2
        exact ih vs (List.nodup_cons.mp hnd).2 hmem (by simpa using hlen)

theorem map_filter_flatten_eq (cols : List String) (hnd : cols.Nodup)
    (sel : List String) (hsub : ∀ s ∈ sel, s ∈ cols) :
    (sel.map (fun s => cols.filter (fun c => c = s))).flatten = sel := by
  induction sel with
  | nil => rfl
  | cons s ss ih =>
    simp only [List.map_cons, List.flatten_cons]
    rw [filter_eq_singleton_of_nodup cols s hnd (hsub s (List.mem_cons_self s ss)),
      ih (fun x hx => hsub x (List.mem_cons_of_mem s hx))]
    rfl

theorem map_cellsFor_flatten_eq (cols : List String)
    (row : List (Option JVal)) (hnd : cols.Nodup)
    (hlen : row.length = cols.length) (sel : List String)
    (hsub : ∀ s ∈ sel, s ∈ cols) :
    (sel.map (fun s => cellsFor cols row s)).flatten
      = sel.map (fun s => getCell cols row s) := by
  induction sel with
  | nil => rfl
  | cons s ss ih =>
    simp only [List.map_cons, List.flatten_cons]
    rw [cellsFor_single cols row s hnd (hsub s (List.mem_cons_self s ss)) hlen,
      ih (fun x hx => hsub x (List.mem_cons_of_mem s hx))]
    rfl

/-- C6: projecting with the empty selection returns the table unchanged;
projecting with a non-empty selection of existing labels returns exactly
the requested columns, with each output row obtained from the input row
at the same position (row order and identity preserved). -/
theorem project_empty_and_select (df : DataFrame) (sel : List String) :
    project df [] = Except.ok df
    ∧ (sel ≠ [] → (∀ s ∈ sel, s ∈ df.cols) → df.cols.Nodup →
        (∀ r ∈ df.rows, r.length = df.cols.length) →
        project df sel = Except.ok
          ⟨sel, df.rows.map (fun r => sel.map (fun s => getCell df.cols r s))⟩) := by
  constructor
  · rfl
  · intro hne hsub hnd hwf
    rw [project, if_neg hne,
      if_pos (List.all_eq_true.mpr (fun s hs => by simpa using hsub s hs))]
    rw [except_pure_def]
    congr 1
    rw [DataFrame.mk.injEq]
    refine ⟨map_filter_flatten_eq df.cols hnd sel hsub, ?_⟩
    exact List.map_congr_left (fun r hr =>
      map_cellsFor_flatten_eq df.cols r hnd (hwf r hr) sel hsub)

theorem project_empty_and_select_witness :
    (["b"] : List String) ≠ [] ∧
    project ⟨["a", "b"], [[some (JVal.jint 1), some (JVal.jint 2)]]⟩ []
      = Except.ok ⟨["a", "b"], [[some (JVal.jint 1), some (JVal.jint 2)]]⟩ ∧
    project ⟨["a", "b"], [[some (JVal.jint 1), some (JVal.jint 2)]]⟩ ["b"]
      = Except.ok ⟨["b"], [[some (JVal.jint 2)]]⟩ := by
  refine ⟨by decide,
    (project_empty_and_select
      ⟨["a", "b"], [[some (JVal.jint 1), some (JVal.jint 2)]]⟩ ["b"]).1, ?_⟩
  have h := (project_empty_and_select
    ⟨["a", "b"], [[some (JVal.jint 1), some (JVal.jint 2)]]⟩ ["b"]).2
    (by decide) (by decide) (by decide) (by decide)
  rw [h]
  rfl

/-! ## Order and sort lemmas (for C1 and C10) -/

theorem charListLe_refl : ∀ l : List Char, charListLe l l = true
  | [] => rfl
  | c :: cs => by
    rw [charListLe, if_neg (lt_irrefl _), if_neg (lt_irrefl _)]
    exact charListLe_refl cs

theorem charListLe_total : ∀ as bs : List Char,
    charListLe as bs = true ∨ charListLe bs as = true := by
  intro as
  induction as with
  | nil => intro bs; left; rfl
  | cons a as ih =>
    intro bs
    cases bs with
    | nil => right; rfl
    | cons b bs' =>
      rw [charListLe, charListLe]
      by_cases h1 : a.toNat < b.toNat
      · left; rw [if_pos h1]
      · by_cases h2 : b.toNat < a.toNat
        · right; rw [if_pos h2]
        · rw [if_neg h1, if_neg h2, if_neg h2, if_neg h1]
          exact ih bs'

theorem charListLe_trans : ∀ as bs cs : List Char,
    charListLe as bs = true → charListLe bs cs = true →
    charListLe as cs = true := by
  intro as
  induction as with
  | nil => intro bs cs h1 h2; rfl
  | cons a as ih =>
    intro bs cs h1 h2
    cases bs with
    | nil => rw [charListLe] at h1; cases h1
    | cons b bs' =>
      cases cs with
      | nil => rw [charListLe] at h2; cases h2
      | cons c cs' =>
        rw [charListLe] at h1 h2 ⊢
        by_cases hba : b.toNat < a.toNat
        · rw [if_neg (by omega), if_pos hba] at h1
          cases h1
        · by_cases hcb : c.toNat < b.toNat
          · rw [if_neg (by omega), if_pos hcb] at h2
            cases h2
          · by_cases hab : a.toNat < b.toNat
            · rw [if_pos (by omega)]
            · by_cases hbc : b.toNat < c.toNat
              · rw [if_pos (by omega)]
              · rw [if_neg (by omega), if_neg (by omega)]
                rw [if_neg hab, if_neg hba] at h1
                rw [if_neg hbc, if_neg hcb] at h2
                exact ih bs' cs' h1 h2

theorem JVal_leB_total (a b : JVal) : a.leB b = true ∨ b.leB a = true := by
  cases a <;> cases b <;>
    first
    | (left; rfl)
    | (right; rfl)
    | skip
  · rename_i x y
    cases x <;> cases y <;> simp [JVal.leB]
  · rename_i x y
    rcases Int.le_total x y with h | h
    · exact Or.inl (by simp [JVal.leB, h])
    · exact Or.inr (by simp [JVal.leB, h])
  · rename_i x y
    exact charListLe_total x.data y.data

theorem JVal_leB_trans (a b c : JVal)
    (h1 : a.leB b = true) (h2 : b.leB c = true) : a.leB c = true := by
  cases a <;> cases b <;> cases c <;>
    first
    | rfl
    | exact Bool.noConfusion h1
    | exact Bool.noConfusion h2
    | skip
  · rename_i x y z
    revert h1 h2
    cases x <;> cases y <;> cases z <;> simp [JVal.leB]
  · rename_i x y z
    simp only [JVal.leB, decide_eq_true_eq] at h1 h2 ⊢
    omega
  · rename_i x y z
    exact charListLe_trans x.data y.data z.data h1 h2

theorem cellLE_total (a b : Option JVal) :
    cellLE a b = true ∨ cellLE b a = true := by
  match a, b with
  | none, none => exact Or.inl rfl
  | none, some v => exact Or.inr rfl
  | some v, none => exact Or.inl rfl
  | some v, some w => exact JVal_leB_total v w

theorem cellLE_trans (a b c : Option JVal)
    (h1 : cellLE a b = true) (h2 : cellLE b c = true) : cellLE a c = true := by
  match a, b, c with
  | none, none, none => rfl
  | none, none, some w => exact Bool.noConfusion h2
  | none, some v, none => rfl
  | none, some v, some w => exact Bool.noConfusion h1
  | some v, none, none => rfl
  | some v, none, some w => exact Bool.noConfusion h2
  | some v, some w, none => rfl
  | some u, some v, some w => exact JVal_leB_trans u v w h1 h2

theorem insertLe_perm {α : Type} (le : α → α → Bool) (a : α) :
    ∀ l : List α, (insertLe le a l).Perm (a :: l) := by
  intro l
  induction l with
  | nil => exact List.Perm.refl _
  | cons b bs ih =>
    rw [insertLe]
    by_cases h : le a b = true
    · rw [if_pos h]
    · rw [if_neg h]
      exact (List.Perm.cons b ih).trans (List.Perm.swap a b bs)

theorem sortByLe_perm {α : Type} (le : α → α → Bool) :
    ∀ l : List α, (sortByLe le l).Perm l := by
  intro l
  induction l with
  | nil => exact List.Perm.refl _
  | cons a as ih =>
    rw [sortByLe]
    exact (insertLe_perm le a (sortByLe le as)).trans (List.Perm.cons a ih)

theorem insertLe_sorted {α : Type} (le : α → α → Bool)
    (htrans : ∀ a b c, le a b = true → le b c = true → le a c = true)
    (htot : ∀ a b, le a b = true ∨ le b a = true) (a : α) :
    ∀ l : List α, l.Pairwise (fun x y => le x y = true) →
      (insertLe le a l).Pairwise (fun x y => le x y = true) := by
  intro l
  induction l with
  | nil => intro _; simp [insertLe]
  | cons b bs ih =>
    intro hl
    rcases List.pairwise_cons.mp hl with ⟨hb, hbs⟩
    rw [insertLe]
    by_cases h : le a b = true
    · rw [if_pos h]
      refine List.pairwise_cons.mpr ⟨?_, hl⟩
      intro x hx
      rcases List.mem_cons.mp hx with rfl | hx'
      · exact h
      · exact htrans a b x h (hb x hx')
    · rw [if_neg h]
      refine List.pairwise_cons.mpr ⟨?_, ih hbs⟩
      intro x hx
      have hx2 := (insertLe_perm le a bs).mem_iff.mp hx
      rcases List.mem_cons.mp hx2 with rfl | hx'
      · rcases htot x b with h1 | h2
        · exact absurd h1 h
        · exact h2
      · exact hb x hx'

theorem sortByLe_sorted {α : Type} (le : α → α → Bool)
    (htrans : ∀ a b c, le a b = true → le b c = true → le a c = true)
    (htot : ∀ a b, le a b = true ∨ le b a = true) :
    ∀ l : List α, (sortByLe le l).Pairwise (fun x y => le x y = true) := by
  intro l
  induction l with
  | nil => simp [sortByLe]
  | cons a as ih =>
    rw [sortByLe]
    exact insertLe_sorted le htrans htot a (sortByLe le as) ih

/-! ## Deduplication lemmas -/

theorem dedupByKey_key_mem {α β : Type} [DecidableEq β] (key : α → β) :
    ∀ (seen : List β) (l : List α) (v : β),
      v ∈ (dedupByKey key seen l).map key ↔ v ∈ l.map key ∧ v ∉ seen := by
  intro seen l
  induction l generalizing seen with
  | nil => intro v; simp [dedupByKey]
  | cons r rs ih =>
    intro v
    rw [dedupByKey]
    by_cases h : key r ∈ seen
    · rw [if_pos h, ih seen v]
      simp only [List.map_cons, List.mem_cons]
      constructor
      · rintro ⟨hm, hn⟩
        exact ⟨Or.inr hm, hn⟩
      · rintro ⟨hm | hm, hn⟩
        · exact absurd (hm ▸ h) hn
        · exact ⟨hm, hn⟩
    · rw [if_neg h]
      simp only [List.map_cons, List.mem_cons]
      constructor
      · rintro (rfl | hm)
        · exact ⟨Or.inl rfl, h⟩
        · rcases (ih (key r :: seen) v).mp hm with ⟨hm2, hn2⟩
          exact ⟨Or.inr hm2,
            fun hv => hn2 (List.mem_cons_of_mem _ hv)⟩
      · rintro ⟨hm | hm, hn⟩
        · exact Or.inl hm
        · by_cases hv : v = key r
          · exact Or.inl hv
          · refine Or.inr ((ih (key r :: seen) v).mpr ⟨hm, ?_⟩)
            intro hmem
            rcases List.mem_cons.mp hmem with h1 | h1
            · exact hv h1
            · exact hn h1

theorem dedupByKey_key_nodup {α β : Type} [DecidableEq β] (key : α → β) :
    ∀ (seen : List β) (l : List α), ((dedupByKey key seen l).map key).Nodup := by
  intro seen l
  induction l generalizing seen with
  | nil => simp [dedupByKey]
  | cons r rs ih =>
    rw [dedupByKey]
    by_cases h : key r ∈ seen
    · rw [if_pos h]; exact ih seen
    · rw [if_neg h]
      simp only [List.map_cons]
      refine List.nodup_cons.mpr ⟨?_, ih (key r :: seen)⟩
      intro hmem
      rcases (dedupByKey_key_mem key (key r :: seen) rs (key r)).mp hmem with
        ⟨_, hn⟩
      exact hn (List.mem_cons_self _ _)

/-! ## C1 -/

/-- C1: when the table has a `$insert_id` column, the returned table has
pairwise-distinct ids, exactly the ids of the input (one row per distinct
value), and its id column is non-decreasing in the cell order (for string
ids, Python string order); when the column is absent the table is
returned untouched, preserving arrival order. -/
theorem insert_id_dedup_sort (df : DataFrame) :
    ("$insert_id" ∈ df.cols →
      ((dedupSortByInsertId df).getCol "$insert_id").Nodup
      ∧ (∀ v, v ∈ (dedupSortByInsertId df).getCol "$insert_id"
          ↔ v ∈ df.getCol "$insert_id")
      ∧ ((dedupSortByInsertId df).getCol "$insert_id").Pairwise
          (fun a b => cellLE a b = true)
      ∧ ((dedupSortByInsertId df).getCol "$insert_id").Pairwise
          (fun a b => ∀ sa sb, a = some (JVal.jstr sa) →
            b = some (JVal.jstr sb) → strLeB sa sb = true))
    ∧ ("$insert_id" ∉ df.cols → dedupSortByInsertId df = df) := by
  constructor
  · intro h
    have hgetcol : (dedupSortByInsertId df).getCol "$insert_id"
        = (sortByLe
            (fun r s => cellLE (getCell df.cols r "$insert_id")
              (getCell df.cols s "$insert_id"))
            (dedupByKey (fun r => getCell df.cols r "$insert_id") []
              df.rows)).map (fun r => getCell df.cols r "$insert_id") := by
      rw [dedupSortByInsertId, if_pos h]
      rfl
    have hperm : ((dedupSortByInsertId df).getCol "$insert_id").Perm
        ((dedupByKey (fun r => getCell df.cols r "$insert_id") []
          df.rows).map (fun r => getCell df.cols r "$insert_id")) := by
      rw [hgetcol]
      exact (sortByLe_perm _ _).map _
    have hsorted : ((dedupSortByInsertId df).getCol "$insert_id").Pairwise
        (fun a b => cellLE a b = true) := by
      rw [hgetcol]
      exact List.pairwise_map.mpr
        (sortByLe_sorted
          (fun r s => cellLE (getCell df.cols r "$insert_id")
            (getCell df.cols s "$insert_id"))
          (fun a b c h1 h2 => cellLE_trans _ _ _ h1 h2)
          (fun a b => cellLE_total _ _) _)
    refine ⟨?_, ?_, hsorted, ?_⟩
    · exact hperm.symm.nodup (dedupByKey_key_nodup _ [] df.rows)
    · intro v
      rw [hperm.mem_iff, dedupByKey_key_mem _ [] df.rows v]
      simp [DataFrame.getCol]
    · refine hsorted.imp ?_
      intro a b hab sa sb ha hb
      rw [ha, hb] at hab
      exact hab
  · intro h
    rw [dedupSortByInsertId, if_neg h]

theorem insert_id_dedup_sort_witness :
    "$insert_id" ∈ (⟨["$insert_id"],
      [[some (JVal.jstr "b")], [some (JVal.jstr "a")],
       [some (JVal.jstr "b")]]⟩ : DataFrame).cols ∧
    ((dedupSortByInsertId ⟨["$insert_id"],
      [[some (JVal.jstr "b")], [some (JVal.jstr "a")],
       [some (JVal.jstr "b")]]⟩).getCol "$insert_id").Nodup ∧
    dedupSortByInsertId ⟨["$insert_id"],
      [[some (JVal.jstr "b")], [some (JVal.jstr "a")],
       [some (JVal.jstr "b")]]⟩
      = ⟨["$insert_id"], [[some (JVal.jstr "a")], [some (JVal.jstr "b")]]⟩ :=
  ⟨by decide,
   ((insert_id_dedup_sort ⟨["$insert_id"],
      [[some (JVal.jstr "b")], [some (JVal.jstr "a")],
       [some (JVal.jstr "b")]]⟩).1 (by decide)).1,
   by decide⟩

/-! ## C10 -/

/-- The claim's first-wins characterization of deduplication: the first
row for each key is retained and every later row with the same key is
discarded. -/
def firstOccurrenceRows {α β : Type} [DecidableEq β] (key : α → β) :
    List α → List α
  | [] => []
  | r :: rs =>
    r :: firstOccurrenceRows key (rs.filter (fun x => key x ≠ key r))
termination_by l => l.length
decreasing_by exact Nat.lt_succ_of_le (List.length_filter_le _ _)

theorem dedupByKey_eq_firstOcc {α β : Type} [DecidableEq β] (key : α → β) :
    ∀ (seen : List β) (l : List α),
      dedupByKey key seen l
        = firstOccurrenceRows key (l.filter (fun r => key r ∉ seen)) := by
  intro seen l
  induction l generalizing seen with
  | nil => simp [dedupByKey, firstOccurrenceRows]
  | cons r rs ih =>
    rw [List.filter_cons]
    by_cases h : key r ∈ seen
    · rw [dedupByKey, if_pos h, if_neg (by simpa using h)]
      exact ih seen
    · rw [dedupByKey, if_neg h, if_pos (by simpa using h),
        firstOccurrenceRows]
      congr 1
      rw [ih (key r :: seen), List.filter_filter]
      congr 1
      apply List.filter_congr
      intro x hx
      by_cases h1 : key x = key r <;> by_cases h2 : key x ∈ seen <;>
        simp [h1, h2]

/-- C10: deduplication keeps, for each distinct `$insert_id` value, the
first-arriving row and discards every later row with the same id; the
sort that follows only permutes these retained rows. -/
theorem dedup_first_wins (df : DataFrame) (h : "$insert_id" ∈ df.cols) :
    (df.dropDuplicates "$insert_id").rows
      = firstOccurrenceRows
          (fun r => getCell df.cols r "$insert_id") df.rows
    ∧ (dedupSortByInsertId df).rows.Perm
        (firstOccurrenceRows
          (fun r => getCell df.cols r "$insert_id") df.rows) := by
  have hdd : (df.dropDuplicates "$insert_id").rows
      = firstOccurrenceRows
          (fun r => getCell df.cols r "$insert_id") df.rows := by
    show dedupByKey _ [] df.rows = _
    rw [dedupByKey_eq_firstOcc]
    congr 1
    apply List.filter_eq_self.mpr
    intro a _
    simp
  refine ⟨hdd, ?_⟩
  rw [dedupSortByInsertId, if_pos h]
  exact hdd ▸ sortByLe_perm _ _

theorem dedup_first_wins_witness :
    "$insert_id" ∈ (⟨["$insert_id", "amount"],
      [[some (JVal.jstr "abc"), some (JVal.jint 1)],
       [some (JVal.jstr "abc"), some (JVal.jint 2)]]⟩ : DataFrame).cols ∧
    ((⟨["$insert_id", "amount"],
      [[some (JVal.jstr "abc"), some (JVal.jint 1)],
       [some (JVal.jstr "abc"), some (JVal.jint 2)]]⟩ :
        DataFrame).dropDuplicates "$insert_id").rows
      = firstOccurrenceRows
          (fun r => getCell ["$insert_id", "amount"] r "$insert_id")
          [[some (JVal.jstr "abc"), some (JVal.jint 1)],
           [some (JVal.jstr "abc"), some (JVal.jint 2)]] ∧
    ((⟨["$insert_id", "amount"],
      [[some (JVal.jstr "abc"), some (JVal.jint 1)],
       [some (JVal.jstr "abc"), some (JVal.jint 2)]]⟩ :
        DataFrame).dropDuplicates "$insert_id").rows
      = [[some (JVal.jstr "abc"), some (JVal.jint 1)]] :=
  ⟨by decide,
   (dedup_first_wins ⟨["$insert_id", "amount"],
      [[some (JVal.jstr "abc"), some (JVal.jint 1)],
       [some (JVal.jstr "abc"), some (JVal.jint 2)]]⟩ (by decide)).1,
   by decide⟩

/-! ## C2 -/

theorem cellsFor_append (cols1 cols2 : List String)
    (r1 r2 : List (Option JVal)) (k : String)
    (hlen : r1.length = cols1.length) :
    cellsFor (cols1 ++ cols2) (r1 ++ r2) k
      = cellsFor cols1 r1 k ++ cellsFor cols2 r2 k := by
  induction cols1 generalizing r1 with
  | nil =>
    cases r1 with
    | nil => rfl
    | cons _ _ => simp at hlen
  | cons c cs ih =>
    cases r1 with
    | nil => simp at hlen
    | cons v vs =>
      simp only [List.cons_append, cellsFor]
      by_cases hck : c = k
      · rw [if_pos hck, if_pos hck]
        show v :: cellsFor (cs ++ cols2) (vs ++ r2) k
          = (v :: cellsFor cs vs k) ++ cellsFor cols2 r2 k
        rw [ih vs (by simpa using hlen)]
        rfl
      · rw [if_neg hck, if_neg hck]
        show cellsFor (cs ++ cols2) (vs ++ r2) k
          = cellsFor cs vs k ++ cellsFor cols2 r2 k
        exact ih vs (by simpa using hlen)

/-- C2 counterexample: with one record whose top-level column `a` holds 1
and whose `properties` object also carries key `a` with value 2, the
flattening step keeps both columns under the duplicated label `a` — the
nested value does not overwrite the top-level one, and the table does not
end up with a single `a` column holding the nested value. -/
theorem flatten_overwrite_counterexample :
    flattenProperties (DataFrame.ofRecords
      [[("a", JVal.jint 1),
        ("properties", JVal.jobj (.fcons "a" (.jint 2) .fnil))]])
      = Except.ok ⟨["a", "a"], [[some (JVal.jint 1), some (JVal.jint 2)]]⟩
    ∧ (⟨["a", "a"], [[some (JVal.jint 1), some (JVal.jint 2)]]⟩ :
        DataFrame).cols.count "a" ≠ 1
    ∧ DataFrame.getCol
        ⟨["a", "a"], [[some (JVal.jint 1), some (JVal.jint 2)]]⟩ "a"
        ≠ [some (JVal.jint 2)]
    ∧ ¬(∀ out, flattenProperties (DataFrame.ofRecords
        [[("a", JVal.jint 1),
          ("properties", JVal.jobj (.fcons "a" (.jint 2) .fnil))]])
          = Except.ok out → out.cols.count "a" = 1) := by
  refine ⟨by decide, by decide, by decide, ?_⟩
  intro hclaim
  exact absurd
    (hclaim ⟨["a", "a"], [[some (JVal.jint 1), some (JVal.jint 2)]]⟩
      (by decide))
    (by decide)

/-- C2 (amended): during flattening, the normalized `properties` columns
are appended after the remaining top-level columns; on a name collision
both columns are retained under a duplicated label, the top-level cell
keeping its value and the nested value sitting in the appended column —
no overwrite happens; the `properties` column itself is dropped (provided
the nested keys do not themselves include a key named `properties`). -/
theorem flatten_appends_nested_columns (df : DataFrame) (p : DataFrame)
    (hp : "properties" ∈ df.cols)
    (hn : jsonNormalize (df.getCol "properties") = Except.ok p) :
    flattenProperties df
      = Except.ok (concatCols (df.dropColumn "properties") p)
    ∧ (concatCols (df.dropColumn "properties") p).cols
        = df.cols.filter (fun c => c ≠ "properties") ++ p.cols
    ∧ ("properties" ∉ p.cols →
        "properties" ∉ (concatCols (df.dropColumn "properties") p).cols)
    ∧ (∀ k, k ∈ df.cols → k ≠ "properties" → k ∈ p.cols →
        2 ≤ (concatCols (df.dropColumn "properties") p).cols.count k)
    ∧ (concatCols (df.dropColumn "properties") p).rows
        = List.zipWith (fun a b => a ++ b)
            (df.rows.map (fun r => dropCells "properties" df.cols r)) p.rows
    ∧ (∀ k r1 r2,
        r1.length = (df.cols.filter (fun c => c ≠ "properties")).length →
        cellsFor (concatCols (df.dropColumn "properties") p).cols
            (r1 ++ r2) k
          = cellsFor (df.cols.filter (fun c => c ≠ "properties")) r1 k
            ++ cellsFor p.cols r2 k) := by
  refine ⟨?_, rfl, ?_, ?_, rfl, ?_⟩
  · rw [flattenProperties, if_pos hp, hn]
    rfl
  · intro hnp hmem
    rcases List.mem_append.mp hmem with h1 | h1
    · rcases List.mem_filter.mp h1 with ⟨_, hdec⟩
      simp at hdec
    · exact hnp h1
  · intro k hk hne hkp
    show 2 ≤ (df.cols.filter (fun c => c ≠ "properties") ++ p.cols).count k
    rw [List.count_append]
    have h1 : k ∈ df.cols.filter (fun c => c ≠ "properties") :=
      List.mem_filter.mpr ⟨hk, by simpa using hne⟩
    have c1 : 1 ≤ (df.cols.filter (fun c => c ≠ "properties")).count k :=
      List.count_pos_iff.mpr h1
    have c2 : 1 ≤ p.cols.count k := List.count_pos_iff.mpr hkp
    omega
  · intro k r1 r2 hlen
    exact cellsFor_append _ _ _ _ _ hlen

theorem flatten_appends_nested_columns_witness :
    "properties" ∈ (DataFrame.ofRecords
      [[("a", JVal.jint 1),
        ("properties", JVal.jobj (.fcons "a" (.jint 2) .fnil))]]).cols ∧
    jsonNormalize ((DataFrame.ofRecords
      [[("a", JVal.jint 1),
        ("properties", JVal.jobj (.fcons "a" (.jint 2) .fnil))]]).getCol
        "properties")
      = Except.ok ⟨["a"], [[some (JVal.jint 2)]]⟩ ∧
    flattenProperties (DataFrame.ofRecords
      [[("a", JVal.jint 1),
        ("properties", JVal.jobj (.fcons "a" (.jint 2) .fnil))]])
      = Except.ok (concatCols
          ((DataFrame.ofRecords
            [[("a", JVal.jint 1),
              ("properties", JVal.jobj (.fcons "a" (.jint 2) .fnil))]]).dropColumn
            "properties")
          ⟨["a"], [[some (JVal.jint 2)]]⟩) :=
  ⟨by decide, by decide,
   (flatten_appends_nested_columns
     (DataFrame.ofRecords
       [[("a", JVal.jint 1),
         ("properties", JVal.jobj (.fcons "a" (.jint 2) .fnil))]])
     ⟨["a"], [[some (JVal.jint 2)]]⟩ (by decide) (by decide)).1⟩

/-! ## URL encoding lemmas (for C7) -/

theorem char_toNat_lt (c : Char) : c.toNat < 0x110000 := by
  rcases c.valid with h | ⟨_, h2⟩
  · exact lt_trans h (by norm_num)
  · exact h2

theorem charUtf8_lt_256 (c : Char) : ∀ b ∈ charUtf8 c, b < 256 := by
  intro b hb
  have hc := char_toNat_lt c
  rw [charUtf8] at hb
  split_ifs at hb with h1 h2 h3 <;>
    simp only [List.mem_cons, List.mem_singleton, List.not_mem_nil,
      or_false] at hb <;>
    rcases hb with rfl | rfl | rfl | rfl <;> omega

theorem hexVal_hexDigitU (d : Nat) (h : d < 16) :
    hexVal (hexDigitU d) = some d := by
  interval_cases d <;> decide

theorem digitChar_bounds (d : Nat) (h : d < 10) :
    48 ≤ (digitChar d).toNat ∧ (digitChar d).toNat ≤ 57 := by
  interval_cases d <;> decide

theorem natDigitsRec_digit :
    ∀ (fuel n : Nat), ∀ c ∈ natDigitsRec fuel n,
      48 ≤ c.toNat ∧ c.toNat ≤ 57 := by
  intro fuel
  induction fuel with
  | zero => intro n c hc; cases hc
  | succ f ih =>
    intro n c hc
    rw [natDigitsRec] at hc
    by_cases h : n < 10
    · rw [if_pos h] at hc
      obtain rfl := List.mem_singleton.mp hc
      exact digitChar_bounds n h
    · rw [if_neg h] at hc
      rcases List.mem_append.mp hc with h1 | h1
      · exact ih (n / 10) c h1
      · obtain rfl := List.mem_singleton.mp h1
        exact digitChar_bounds (n % 10) (Nat.mod_lt _ (by omega))

theorem digit_urlSafe (c : Char) (h1 : 48 ≤ c.toNat) (h2 : c.toNat ≤ 57) :
    isUrlSafe c = true := by
  rw [isUrlSafe]
  simp only [Bool.or_eq_true, Bool.and_eq_true, decide_eq_true_eq]
  omega

theorem strftimeYmd_safe (d : PyDate) :
    ∀ c ∈ (strftimeYmd d).data, isUrlSafe c = true := by
  intro c hc
  have hpad : ∀ w n, ∀ x ∈ (padZeros w n).data, isUrlSafe x = true := by
    intro w n x hx
    rcases List.mem_append.mp hx with h1 | h1
    · obtain ⟨_, rfl⟩ := List.mem_replicate.mp h1
      decide
    · rcases natDigitsRec_digit (n + 1) n x h1 with ⟨ha, hb⟩
      exact digit_urlSafe x ha hb
  simp only [strftimeYmd, String.data_append] at hc
  rcases List.mem_append.mp hc with hc2 | h1
  · rcases List.mem_append.mp hc2 with hc3 | h1
    · rcases List.mem_append.mp hc3 with hc4 | h1
      · rcases List.mem_append.mp hc4 with h1 | h1
        · exact hpad 4 d.year c h1
        · obtain rfl := List.mem_singleton.mp h1
          decide
      · exact hpad 2 d.month c h1
    · obtain rfl := List.mem_singleton.mp h1
      decide
  · exact hpad 2 d.day c h1

theorem urlSafe_facts (c : Char) (h : isUrlSafe c = true) :
    c.toNat < 128 ∧ c.toNat ≠ 43 ∧ c.toNat ≠ 37 ∧
    c.toNat ≠ 38 ∧ c.toNat ≠ 61 := by
  rw [isUrlSafe] at h
  simp only [Bool.or_eq_true, Bool.and_eq_true, decide_eq_true_eq] at h
  rcases h with ((((((h | h) | h) | h) | h) | h) | h)
  · omega
  · omega
  · omega
  · subst h; decide
  · subst h; decide
  · subst h; decide
  · subst h; decide

theorem quotePlusChars_safe_id :
    ∀ l : List Char, (∀ c ∈ l, isUrlSafe c = true) → quotePlusChars l = l := by
  intro l
  induction l with
  | nil => intro _; rfl
  | cons c cs ih =>
    intro h
    rw [quotePlusChars, if_pos (h c (List.mem_cons_self c cs)),
      ih (fun x hx => h x (List.mem_cons_of_mem c hx))]
    rfl

theorem quotePlus_safe (s : String)
    (h : ∀ c ∈ s.data, isUrlSafe c = true) : quotePlus s = s := by
  apply String.ext
  show quotePlusChars s.data = s.data
  exact quotePlusChars_safe_id s.data h

theorem charUtf8_of_ascii (c : Char) (h : c.toNat < 128) :
    charUtf8 c = [c.toNat] := by
  rw [charUtf8]
  rw [if_pos (by omega : c.toNat < 0x80)]

theorem percentDecodeBytes_cons (c : Char) (cs : List Char) :
    percentDecodeBytes (c :: cs)
      = if c = '+' then (percentDecodeBytes cs).map (fun r => 32 :: r)
        else if c = '%' then
          (match cs with
          | h :: l :: rest => do
            let hv ← hexVal h
            let lv ← hexVal l
            let r ← percentDecodeBytes rest
            pure ((16 * hv + lv) :: r)
          | _ => none)
        else (percentDecodeBytes cs).map (fun r => c.toNat :: r) := by
  rw [percentDecodeBytes.eq_def]

theorem percentDecode_pctChars_cons (b : Nat) (rest : List Char) :
    percentDecodeBytes (pctChars b ++ rest)
      = (do
          let hv ← hexVal (hexDigitU (b / 16 % 16))
          let lv ← hexVal (hexDigitU (b % 16))
          let r ← percentDecodeBytes rest
          pure ((16 * hv + lv) :: r)) := rfl

theorem percentDecode_pct (bytes : List Nat) (hb : ∀ b ∈ bytes, b < 256)
    (rest : List Char) :
    percentDecodeBytes ((bytes.map pctChars).flatten ++ rest)
      = (percentDecodeBytes rest).map (fun r => bytes ++ r) := by
  induction bytes with
  | nil =>
    simp only [List.map_nil, List.flatten_nil, List.nil_append]
    cases percentDecodeBytes rest <;> rfl
  | cons b bs ih =>
    have hblt : b < 256 := hb b (List.mem_cons_self b bs)
    simp only [List.map_cons, List.flatten_cons, List.append_assoc]
    rw [percentDecode_pctChars_cons]
    rw [hexVal_hexDigitU (b / 16 % 16) (Nat.mod_lt _ (by omega)),
      hexVal_hexDigitU (b % 16) (Nat.mod_lt _ (by omega))]
    rw [ih (fun x hx => hb x (List.mem_cons_of_mem b hx))]
    have hbval : 16 * (b / 16 % 16) + b % 16 = b := by omega
    cases percentDecodeBytes rest with
    | none => rfl
    | some r =>
      show some ((16 * (b / 16 % 16) + b % 16) :: (bs ++ r))
        = some ((b :: bs) ++ r)
      rw [hbval]
      rfl

theorem percentDecode_quotePlusChars :
    ∀ l : List Char,
      percentDecodeBytes (quotePlusChars l)
        = some ((l.map charUtf8).flatten) := by
  intro l
  induction l with
  | nil => rfl
  | cons c cs ih =>
    rw [quotePlusChars]
    by_cases hsafe : isUrlSafe c = true
    · rw [if_pos hsafe]
      obtain ⟨hlt, h43, h37, _, _⟩ := urlSafe_facts c hsafe
      have hplus : c ≠ '+' := fun h => h43 (by rw [h]; rfl)
      have hpct : c ≠ '%' := fun h => h37 (by rw [h]; rfl)
      have hstep : percentDecodeBytes (c :: quotePlusChars cs)
          = (percentDecodeBytes (quotePlusChars cs)).map
              (fun r => c.toNat :: r) := by
        rw [percentDecodeBytes_cons, if_neg hplus, if_neg hpct]
      show percentDecodeBytes (c :: quotePlusChars cs) = _
      rw [hstep, ih]
      simp only [List.map_cons, List.flatten_cons, Option.map]
      rw [charUtf8_of_ascii c hlt]
      rfl
    · rw [if_neg hsafe]
      by_cases hspace : c = ' '
      · rw [if_pos hspace]
        subst hspace
        have hstep : percentDecodeBytes ('+' :: quotePlusChars cs)
            = (percentDecodeBytes (quotePlusChars cs)).map
                (fun r => 32 :: r) := by
          rw [percentDecodeBytes_cons, if_pos rfl]
        show percentDecodeBytes ('+' :: quotePlusChars cs) = _
        rw [hstep, ih]
        simp only [List.map_cons, List.flatten_cons, Option.map]
        rfl
      · rw [if_neg hspace]
        rw [percentDecode_pct (charUtf8 c) (charUtf8_lt_256 c)
          (quotePlusChars cs), ih]
        simp only [List.map_cons, List.flatten_cons, Option.map]

theorem hexDigitU_ne_sep (d : Nat) (h : d < 16) :
    hexDigitU d ≠ '&' ∧ hexDigitU d ≠ '=' := by
  interval_cases d <;> exact ⟨by decide, by decide⟩

theorem quotePlusChars_sep_free :
    ∀ l : List Char, ∀ x ∈ quotePlusChars l, x ≠ '&' ∧ x ≠ '=' := by
  intro l
  induction l with
  | nil => intro x hx; cases hx
  | cons c cs ih =>
    intro x hx
    rw [quotePlusChars] at hx
    rcases List.mem_append.mp hx with h1 | h1
    · split_ifs at h1 with hsafe hspace
      · obtain rfl := List.mem_singleton.mp h1
        obtain ⟨_, _, _, h38, h61⟩ := urlSafe_facts x hsafe
        exact ⟨fun hh => h38 (by rw [hh]; rfl),
               fun hh => h61 (by rw [hh]; rfl)⟩
      · obtain rfl := List.mem_singleton.mp h1
        exact ⟨by decide, by decide⟩
      · rcases List.mem_flatten.mp h1 with ⟨chunk, hchunk, hxin⟩
        rcases List.mem_map.mp hchunk with ⟨b, hbmem, rfl⟩
        have hblt : b < 256 := charUtf8_lt_256 c b hbmem
        rw [pctChars] at hxin
        rcases List.mem_cons.mp hxin with rfl | hxin2
        · exact ⟨by decide, by decide⟩
        · rcases List.mem_cons.mp hxin2 with rfl | hxin3
          · exact hexDigitU_ne_sep _ (Nat.mod_lt _ (by omega))
          · obtain rfl := List.mem_singleton.mp hxin3
            exact hexDigitU_ne_sep _ (Nat.mod_lt _ (by omega))
    · exact ih x h1

/-! ## C7 -/

theorem urlencodeParams_cons (kv a : String × String)
    (rest : List (String × String)) :
    urlencodeParams (kv :: a :: rest)
      = quotePlus kv.1 ++ "=" ++ quotePlus kv.2 ++ "&"
        ++ urlencodeParams (a :: rest) := rfl

theorem urlencodeParams_single (kv : String × String) :
    urlencodeParams [kv] = quotePlus kv.1 ++ "=" ++ quotePlus kv.2 := rfl

/-- C7: the single outbound request of an export run uses the URL built
from the base host for the region followed by the parameters in
insertion order — project id, the ISO `YYYY-MM-DD` date bounds verbatim,
the `quote_plus`-encoded JSON array of event names — with a `where`
parameter present exactly when the stripped filter expression is
non-blank; the encoded event parameter percent-decodes back to exactly
the UTF-8 bytes of the JSON array text and contains no raw `&` or `=`. -/
theorem export_url_spec (projectId : String) (events : List String)
    (d1 d2 : PyDate) (whereRaw : String) (region : String) :
    runExportUrl projectId events d1 d2 whereRaw region
      = mixpanelBaseUrl region ++ "?"
        ++ "project_id" ++ "=" ++ quotePlus projectId
        ++ "&" ++ "from_date" ++ "=" ++ strftimeYmd d1
        ++ "&" ++ "to_date" ++ "=" ++ strftimeYmd d2
        ++ "&" ++ "event" ++ "=" ++ quotePlus (jsonDumpsStrList events)
        ++ (match whereArg whereRaw with
            | some w => "&" ++ "where" ++ "=" ++ quotePlus w
            | none => "")
    ∧ ((whereArg whereRaw).isSome ↔ pyStrip whereRaw ≠ "")
    ∧ percentDecodeBytes (quotePlus (jsonDumpsStrList events)).data
        = some (utf8Bytes (jsonDumpsStrList events))
    ∧ (∀ x ∈ (quotePlus (jsonDumpsStrList events)).data,
        x ≠ '&' ∧ x ≠ '=') := by
  refine ⟨?_, ?_, ?_, ?_⟩
  · rw [runExportUrl, fetchMixpanelUrl]
    cases hw : whereArg whereRaw with
    | none =>
      rw [buildParams]
      simp only [List.append_nil]
      rw [urlencodeParams_cons, urlencodeParams_cons, urlencodeParams_cons,
        urlencodeParams_single]
      rw [show quotePlus "project_id" = "project_id" from by decide,
        show quotePlus "from_date" = "from_date" from by decide,
        show quotePlus "to_date" = "to_date" from by decide,
        show quotePlus "event" = "event" from by decide,
        quotePlus_safe (strftimeYmd d1) (strftimeYmd_safe d1),
        quotePlus_safe (strftimeYmd d2) (strftimeYmd_safe d2)]
      simp only [String.append_assoc, String.append_empty]
    | some w =>
      have hwne : w ≠ "" := by
        rw [whereArg] at hw
        by_cases h : pyStrip whereRaw = ""
        · rw [if_pos h] at hw; cases hw
        · rw [if_neg h] at hw
          injection hw with h2
          exact h2 ▸ h
      rw [buildParams]
      rw [if_neg hwne]
      show mixpanelBaseUrl region ++ "?" ++ urlencodeParams
        [("project_id", projectId), ("from_date", strftimeYmd d1),
         ("to_date", strftimeYmd d2), ("event", jsonDumpsStrList events),
         ("where", w)] = _
      rw [urlencodeParams_cons, urlencodeParams_cons, urlencodeParams_cons,
        urlencodeParams_cons, urlencodeParams_single]
      rw [show quotePlus "project_id" = "project_id" from by decide,
        show quotePlus "from_date" = "from_date" from by decide,
        show quotePlus "to_date" = "to_date" from by decide,
        show quotePlus "event" = "event" from by decide,
        show quotePlus "where" = "where" from by decide,
        quotePlus_safe (strftimeYmd d1) (strftimeYmd_safe d1),
        quotePlus_safe (strftimeYmd d2) (strftimeYmd_safe d2)]
      simp only [String.append_assoc]
  · by_cases h : pyStrip whereRaw = "" <;> simp [whereArg, h]
  · exact percentDecode_quotePlusChars (jsonDumpsStrList events).data
  · exact fun x hx =>
      quotePlusChars_sep_free (jsonDumpsStrList events).data x hx

theorem export_url_spec_witness :
    runExportUrl "PID" ["New Payment Made"] ⟨2025, 8, 1⟩ ⟨2025, 8, 31⟩
        "  " "EU"
      = "https://data-eu.mixpanel.com/api/2.0/export?project_id=PID&from_date=2025-08-01&to_date=2025-08-31&event=%5B%22New+Payment+Made%22%5D"
    ∧ ((whereArg "  ").isSome ↔ pyStrip "  " ≠ "") := by
  constructor
  · have h := (export_url_spec "PID" ["New Payment Made"] ⟨2025, 8, 1⟩
      ⟨2025, 8, 31⟩ "  " "EU").1
    rw [h]
    decide
  · exact (export_url_spec "PID" ["New Payment Made"] ⟨2025, 8, 1⟩
      ⟨2025, 8, 31⟩ "  " "EU").2.1

/-! ## CSV round-trip lemmas (for C8) -/

theorem csv_unq_accum (cs : List Char)
    (h : ∀ c ∈ cs, c ≠ ',' ∧ c ≠ '\n') (f : List Char)
    (rec : List String) (rows : List (List String)) :
    List.foldl csvStep ⟨.unquoted, f, rec, rows⟩ cs
      = ⟨.unquoted, f ++ cs, rec, rows⟩ := by
  induction cs generalizing f with
  | nil => simp
  | cons c cs' ih =>
    obtain ⟨hc1, hc2⟩ := h c (List.mem_cons_self c cs')
    rw [List.foldl_cons]
    have hstep : csvStep ⟨.unquoted, f, rec, rows⟩ c
        = ⟨.unquoted, f ++ [c], rec, rows⟩ := by
      simp only [csvStep]
      rw [if_neg hc1, if_neg hc2]
    rw [hstep, ih (fun x hx => h x (List.mem_cons_of_mem c hx)) (f ++ [c])]
    simp

theorem csv_quo_accum (cs : List Char) (f : List Char)
    (rec : List String) (rows : List (List String)) :
    List.foldl csvStep ⟨.quoted, f, rec, rows⟩ (escapeQuotes cs)
      = ⟨.quoted, f ++ cs, rec, rows⟩ := by
  induction cs generalizing f with
  | nil => simp [escapeQuotes]
  | cons c cs' ih =>
    rw [escapeQuotes]
    by_cases hc : c = '"'
    · rw [if_pos hc]
      subst hc
      rw [List.foldl_cons, List.foldl_cons]
      have h1 : csvStep ⟨.quoted, f, rec, rows⟩ '"'
          = ⟨.quoteInQuoted, f, rec, rows⟩ := by
        simp [csvStep]
      have h2 : csvStep ⟨.quoteInQuoted, f, rec, rows⟩ '"'
          = ⟨.quoted, f ++ ['"'], rec, rows⟩ := by
        simp [csvStep]
      rw [h1, h2, ih (f ++ ['"'])]
      simp
    · rw [if_neg hc, List.foldl_cons]
      have h1 : csvStep ⟨.quoted, f, rec, rows⟩ c
          = ⟨.quoted, f ++ [c], rec, rows⟩ := by
        simp only [csvStep]
        rw [if_neg hc]
      rw [h1, ih (f ++ [c])]
      simp

theorem needsQuote_false_plain (fld : String)
    (hq : needsQuote fld = false) :
    ∀ c ∈ fld.data, c ≠ ',' ∧ c ≠ '"' ∧ c ≠ '\n' := by
  intro c hc
  rw [needsQuote, List.any_eq_false] at hq
  have := hq c hc
  simp only [Bool.or_eq_true, decide_eq_true_eq, not_or] at this
  exact ⟨by tauto, by tauto, by tauto⟩

theorem csv_field_state (fld : String) (rec : List String)
    (rows : List (List String)) :
    (List.foldl csvStep ⟨.fieldStart, [], rec, rows⟩ (encodeField fld).data
        = ⟨.unquoted, fld.data, rec, rows⟩)
    ∨ (List.foldl csvStep ⟨.fieldStart, [], rec, rows⟩ (encodeField fld).data
        = ⟨.quoteInQuoted, fld.data, rec, rows⟩)
    ∨ (List.foldl csvStep ⟨.fieldStart, [], rec, rows⟩ (encodeField fld).data
        = ⟨.fieldStart, [], rec, rows⟩ ∧ fld = "") := by
  by_cases hq : needsQuote fld = true
  · refine Or.inr (Or.inl ?_)
    rw [encodeField, if_pos hq]
    have hdata : ("\"" ++ (escapeQuotes fld.data).asString ++ "\"").data
        = '"' :: (escapeQuotes fld.data ++ ['"']) := by
      rw [String.data_append, String.data_append, asString_data]
      rfl
    rw [hdata, List.foldl_cons]
    have h1 : csvStep ⟨.fieldStart, [], rec, rows⟩ '"'
        = ⟨.quoted, [], rec, rows⟩ := by
      simp [csvStep]
    rw [h1, List.foldl_append, csv_quo_accum fld.data [] rec rows]
    have h2 : csvStep ⟨.quoted, fld.data, rec, rows⟩ '"'
        = ⟨.quoteInQuoted, fld.data, rec, rows⟩ := by
      simp [csvStep]
    simp only [List.nil_append, List.foldl_cons, List.foldl_nil, h2]
  · rw [encodeField, if_neg hq]
    have hplain := needsQuote_false_plain fld (by simpa using hq)
    cases hd : fld.data with
    | nil =>
      refine Or.inr (Or.inr ⟨rfl, String.ext hd⟩)
    | cons c0 cs0 =>
      refine Or.inl ?_
      rw [List.foldl_cons]
      obtain ⟨h1, h2, h3⟩ := hplain c0 (by rw [hd]; exact List.mem_cons_self _ _)
      have hstep : csvStep ⟨.fieldStart, [], rec, rows⟩ c0
          = ⟨.unquoted, [c0], rec, rows⟩ := by
        simp only [csvStep]
        rw [if_neg h2, if_neg h1, if_neg h3]
      rw [hstep, csv_unq_accum cs0 ?hpl [c0] rec rows]
      · rfl
      case hpl =>
        intro x hx
        have := hplain x (by rw [hd]; exact List.mem_cons_of_mem _ hx)
        exact ⟨this.1, this.2.2⟩

theorem csv_field_comma (fld : String) (rec : List String)
    (rows : List (List String)) (rest : List Char) :
    List.foldl csvStep ⟨.fieldStart, [], rec, rows⟩
      ((encodeField fld).data ++ ',' :: rest)
      = List.foldl csvStep ⟨.fieldStart, [], rec ++ [fld], rows⟩ rest := by
  rw [List.foldl_append]
  rcases csv_field_state fld rec rows with h | h | ⟨h, hrfl⟩ <;> rw [h] <;>
    rw [List.foldl_cons]
  · have hstep : csvStep ⟨.unquoted, fld.data, rec, rows⟩ ','
        = ⟨.fieldStart, [], rec ++ [fld], rows⟩ := by
      simp [csvStep, data_asString]
    rw [hstep]
  · have hstep : csvStep ⟨.quoteInQuoted, fld.data, rec, rows⟩ ','
        = ⟨.fieldStart, [], rec ++ [fld], rows⟩ := by
      simp [csvStep, data_asString]
    rw [hstep]
  · have hstep : csvStep ⟨.fieldStart, [], rec, rows⟩ ','
        = ⟨.fieldStart, [], rec ++ [""], rows⟩ := by
      simp [csvStep]
    rw [hstep, hrfl]

theorem csv_field_nl (fld : String) (rec : List String)
    (rows : List (List String)) (rest : List Char) :
    List.foldl csvStep ⟨.fieldStart, [], rec, rows⟩
      ((encodeField fld).data ++ '\n' :: rest)
      = List.foldl csvStep ⟨.fieldStart, [], [], rows ++ [rec ++ [fld]]⟩
          rest := by
  rw [List.foldl_append]
  rcases csv_field_state fld rec rows with h | h | ⟨h, hrfl⟩ <;> rw [h] <;>
    rw [List.foldl_cons]
  · have hstep : csvStep ⟨.unquoted, fld.data, rec, rows⟩ '\n'
        = ⟨.fieldStart, [], [], rows ++ [rec ++ [fld]]⟩ := by
      simp [csvStep, data_asString]
    rw [hstep]
  · have hstep : csvStep ⟨.quoteInQuoted, fld.data, rec, rows⟩ '\n'
        = ⟨.fieldStart, [], [], rows ++ [rec ++ [fld]]⟩ := by
      simp [csvStep, data_asString]
    rw [hstep]
  · have hstep : csvStep ⟨.fieldStart, [], rec, rows⟩ '\n'
        = ⟨.fieldStart, [], [], rows ++ [rec ++ [""]]⟩ := by
      simp [csvStep]
    rw [hstep, hrfl]

theorem csv_record (fs : List String) (hne : fs ≠ [])
    (rec : List String) (rows : List (List String)) (rest : List Char) :
    List.foldl csvStep ⟨.fieldStart, [], rec, rows⟩
      ((encodeRow fs).data ++ '\n' :: rest)
      = List.foldl csvStep ⟨.fieldStart, [], [], rows ++ [rec ++ fs]⟩
          rest := by
  induction fs generalizing rec with
  | nil => exact absurd rfl hne
  | cons f fs' ih =>
    cases fs' with
    | nil =>
      show List.foldl csvStep _ ((encodeField f).data ++ '\n' :: rest) = _
      rw [csv_field_nl]
    | cons f2 fs'' =>
      have hdata : (encodeRow (f :: f2 :: fs'')).data
          = (encodeField f).data ++ ',' :: (encodeRow (f2 :: fs'')).data := by
        show (encodeField f ++ "," ++ encodeRow (f2 :: fs'')).data = _
        rw [String.data_append, String.data_append, List.append_assoc]
        rfl
      rw [hdata, List.append_assoc]
      show List.foldl csvStep _
        ((encodeField f).data ++ ',' ::
          ((encodeRow (f2 :: fs'')).data ++ '\n' :: rest)) = _
      rw [csv_field_comma, ih (by simp) (rec ++ [f])]
      simp [List.append_assoc]

theorem csv_rows (rrows : List (List String))
    (h : ∀ r ∈ rrows, r ≠ []) (rows : List (List String)) :
    List.foldl csvStep ⟨.fieldStart, [], [], rows⟩
      (csvConcatRows (rrows.map (fun r => encodeRow r ++ "\n"))).data
      = ⟨.fieldStart, [], [], rows ++ rrows⟩ := by
  induction rrows generalizing rows with
  | nil => simp [csvConcatRows]
  | cons r rs ih =>
    have hdata : (csvConcatRows
        ((r :: rs).map (fun x => encodeRow x ++ "\n"))).data
        = (encodeRow r).data ++ '\n' ::
          (csvConcatRows (rs.map (fun x => encodeRow x ++ "\n"))).data := by
      show (encodeRow r ++ "\n"
        ++ csvConcatRows (rs.map (fun x => encodeRow x ++ "\n"))).data = _
      rw [String.data_append, String.data_append, List.append_assoc]
      rfl
    rw [hdata, csv_record r (h r (List.mem_cons_self r rs)) [] rows,
      ih (fun x hx => h x (List.mem_cons_of_mem _ hx)) (rows ++ [[] ++ r])]
    simp [List.append_assoc]

/-- A cell holding a scalar (or missing) value, as opposed to a dict. -/
def isScalarCell : Option JVal → Bool
  | some (.jobj _) => false
  | _ => true

/-- C8: serializing a table with `to_csv` (header row of the column
labels, the table's column order, no index column) and re-parsing the CSV
text yields exactly the header followed by the rows with every cell
stringified — the same (column, value) pairs as the original table, up to
stringification of the scalar cell values. -/
theorem csv_roundtrip (df : DataFrame) (hc : df.cols ≠ [])
    (hr : ∀ r ∈ df.rows, r ≠ [])
    (_hscalar : ∀ r ∈ df.rows, ∀ v ∈ r, isScalarCell v = true) :
    csvParse (dfToCsv df)
      = df.cols :: df.rows.map (fun r => r.map cellToCsv) := by
  rw [csvParse]
  have hdata : (dfToCsv df).data
      = (encodeRow df.cols).data ++ '\n' ::
        (csvConcatRows (df.rows.map
          (fun r => encodeRow (r.map cellToCsv) ++ "\n"))).data := by
    show (encodeRow df.cols ++ "\n" ++ csvConcatRows _).data = _
    rw [String.data_append, String.data_append, List.append_assoc]
    rfl
  rw [hdata]
  show csvFinalize (List.foldl csvStep ⟨.fieldStart, [], [], []⟩ _) = _
  rw [csv_record df.cols hc [] []]
  have hnm : ∀ r ∈ df.rows.map (fun r => r.map cellToCsv), r ≠ [] := by
    intro r hrm
    rcases List.mem_map.mp hrm with ⟨r0, hr0, rfl⟩
    intro hnil
    exact hr r0 hr0 (List.map_eq_nil_iff.mp hnil)
  have hmapmap : df.rows.map (fun r => encodeRow (r.map cellToCsv) ++ "\n")
      = (df.rows.map (fun r => r.map cellToCsv)).map
          (fun r => encodeRow r ++ "\n") := by
    rw [List.map_map]
    rfl
  rw [hmapmap]
  rw [show ([] : List (List String)) ++ [([] : List String) ++ df.cols]
    = [df.cols] from by simp]
  rw [csv_rows (df.rows.map (fun r => r.map cellToCsv)) hnm [df.cols]]
  rfl

theorem csv_roundtrip_witness :
    (["a", "b"] : List String) ≠ [] ∧
    csvParse (dfToCsv ⟨["a", "b"],
      [[some (JVal.jint 1), none],
       [some (JVal.jstr "x,y"), some (JVal.jbool true)]]⟩)
      = [["a", "b"], ["1", ""], ["x,y", "True"]] := by
  refine ⟨by decide, ?_⟩
  have h := csv_roundtrip ⟨["a", "b"],
    [[some (JVal.jint 1), none],
     [some (JVal.jstr "x,y"), some (JVal.jbool true)]]⟩
    (by decide) (by decide) (by decide)
  rw [h]
  decide
